import Mathlib

/-
Verification of the bolt-xl continuous-batching engine core.

Shallow embedding of the Rust sources:
  * src/engine/sequence.rs      — Sequence, SequenceGroup, SequenceStatus
  * src/config.rs               — Config, Config::validate
  * src/engine/block_manager.rs — BlockAllocator
  * src/engine/scheduler.rs     — Scheduler::add_request, Scheduler::step
  * src/engine/sampling.rs      — SamplingParams, Sampler::sample
  * src/engine/llm_engine.rs    — LLMEngine::add_request, LLMEngine::step

Modelling conventions:
  * `usize`/`u32`/`u64` become `ℕ` (no arithmetic here ever overflows or wraps;
    the only subtraction is the `probs.len() - 1` fallback, noted at its def).
  * `f64`/`f32` values that only flow through comparisons, division, `exp` and
    sums are idealised as real numbers (`ℝ`), with `f32::exp` as `Real.exp`.
  * Rust `String`s that are sliced byte-wise are modelled as `List Char`
    (`full_text[n..]` becomes `List.drop n`); the tokenizer is UTF-8 clean on
    the paths modelled here.
  * `VecDeque` and `Vec` become `List` with the front of the deque at the head;
    `push_back`/`push` is `++ [x]`, `push_front` is `x :: ·`, `pop_front` is
    pattern matching on the head, `Vec::pop` takes the last element.
  * The tokenizer (external `tokenizers` crate) is abstracted as functions
    `encode : List Char → List ℕ` and `decode : List ℕ → List Char`, and the
    end-of-text id lookup as an `Option ℕ`.
  * The sampler's `StdRng` is modelled as the stream of draws it will produce
    (a `List ℝ`); `gen_range(0.0..1.0)` consumes the head of the stream.
  * `tokio` sinks (`UnboundedSender<String>`) are modelled by whether the
    sequence still holds its sender (`Bool`) plus the trace of sent deltas
    returned by the step functions.
  * `SequenceGroup.arrival_time` (`std::time::Instant`, used by no modelled
    code path) is omitted.
-/

namespace BoltXL

/-- Token ids are `u32` in the source. -/
abbrev TokenId := ℕ

/-- Rust `String`, viewed as its character sequence. -/
abbrev Str := List Char

/-! ## Sequence model — src/engine/sequence.rs -/

/-- `SequenceStatus` (sequence.rs lines 4-9). -/
inductive SequenceStatus where
  | Waiting
  | Running
  | Preempted
  | Finished
deriving DecidableEq, Repr

/-- `Sequence` (sequence.rs lines 12-21). The `sender : Option<UnboundedSender<String>>`
is modelled by whether the sender is still held. -/
structure Sequence where
  seq_id : ℕ
  prompt : Str
  prompt_token_ids : List TokenId
  output_token_ids : List TokenId
  output_text : Str
  status : SequenceStatus
  sender : Bool
deriving DecidableEq, Repr

/-- `Sequence::new` (sequence.rs lines 24-39). -/
def Sequence.new (seq_id : ℕ) (prompt : Str) (prompt_token_ids : List TokenId)
    (sender : Bool) : Sequence :=
  { seq_id := seq_id
    prompt := prompt
    prompt_token_ids := prompt_token_ids
    output_token_ids := []
    output_text := []
    status := SequenceStatus.Waiting
    sender := sender }

/-- `Sequence::get_len` (sequence.rs lines 42-44): prompt plus generated length. -/
def Sequence.get_len (s : Sequence) : ℕ :=
  s.prompt_token_ids.length + s.output_token_ids.length

/-- `Sequence::append_token_id` (sequence.rs lines 46-48). -/
def Sequence.append_token_id (s : Sequence) (token_id : TokenId) : Sequence :=
  { s with output_token_ids := s.output_token_ids ++ [token_id] }

/-- `Sequence::set_status` (sequence.rs lines 50-52). -/
def Sequence.set_status (s : Sequence) (status : SequenceStatus) : Sequence :=
  { s with status := status }

/-- `Sequence::is_finished` (sequence.rs lines 54-56). -/
def Sequence.is_finished (s : Sequence) : Bool :=
  s.status = SequenceStatus.Finished

/-- `Sequence::is_running` (sequence.rs lines 58-60). -/
def Sequence.is_running (s : Sequence) : Bool :=
  s.status = SequenceStatus.Running

/-- `SequenceGroup` (sequence.rs lines 63-68); `arrival_time` omitted (unused by
the modelled code paths). -/
structure SequenceGroup where
  request_id : String
  seqs : List Sequence
deriving DecidableEq, Repr

/-- `SequenceGroup::new` (sequence.rs lines 70-77). -/
def SequenceGroup.new (request_id : String) (seqs : List Sequence) : SequenceGroup :=
  { request_id := request_id, seqs := seqs }

/-- `SequenceGroup::is_finished` (sequence.rs lines 80-82): all sequences finished. -/
def SequenceGroup.is_finished (g : SequenceGroup) : Bool :=
  g.seqs.all Sequence.is_finished

/-- `SequenceGroup::total_tokens` (sequence.rs lines 85-87): sum of `get_len`. -/
def SequenceGroup.total_tokens (g : SequenceGroup) : ℕ :=
  (g.seqs.map Sequence.get_len).sum

/-! ## Config — src/config.rs -/

/-- `Config` (config.rs lines 5-16). `gpu_memory_utilization : f64` is idealised
as a rational. -/
structure Config where
  model : String
  max_num_batched_tokens : ℕ
  max_num_seqs : ℕ
  max_model_len : ℕ
  gpu_memory_utilization : ℚ
  tensor_parallel_size : ℕ
  kvcache_block_size : ℕ
  speculative_decoding : Bool
  draft_model : Option String
  num_speculative_tokens : ℕ
deriving DecidableEq, Repr

/-- `impl Default for Config` (config.rs lines 18-33). -/
def Config.default : Config :=
  { model := "TinyLlama/TinyLlama-1.1B-Chat-v1.0"
    max_num_batched_tokens := 4096
    max_num_seqs := 256
    max_model_len := 2048
    gpu_memory_utilization := 9 / 10
    tensor_parallel_size := 1
    kvcache_block_size := 16
    speculative_decoding := false
    draft_model := none
    num_speculative_tokens := 5 }

/-- `Config::validate` (config.rs lines 36-62), with the early returns as a
chain of conditionals in source order. -/
def Config.validate (c : Config) : Except String Unit :=
  if c.max_num_batched_tokens = 0 then
    Except.error "max_num_batched_tokens must be > 0"
  else if c.max_num_seqs = 0 then
    Except.error "max_num_seqs must be > 0"
  else if c.max_model_len = 0 then
    Except.error "max_model_len must be > 0"
  else if ¬(0 ≤ c.gpu_memory_utilization ∧ c.gpu_memory_utilization ≤ 1) then
    Except.error "gpu_memory_utilization must be between 0 and 1"
  else if c.tensor_parallel_size = 0 then
    Except.error "tensor_parallel_size must be > 0"
  else if c.kvcache_block_size = 0 then
    Except.error "kvcache_block_size must be > 0"
  else if c.speculative_decoding && c.draft_model.isNone then
    Except.error "draft_model must be provided when speculative_decoding is enabled"
  else if c.num_speculative_tokens = 0 then
    Except.error "num_speculative_tokens must be > 0"
  else
    Except.ok ()

/-! ## Block allocator — src/engine/block_manager.rs -/

/-- `BlockAllocator` (block_manager.rs lines 4-6): the free pool, with the top
of the `Vec` stack at the end of the list. -/
structure BlockAllocator where
  free_blocks : List ℕ
deriving DecidableEq, Repr

/-- `BlockAllocator::new` (block_manager.rs lines 9-14). -/
def BlockAllocator.new (num_blocks : ℕ) : BlockAllocator :=
  { free_blocks := List.range num_blocks }

/-- `BlockAllocator::allocate` (block_manager.rs lines 16-18): `Vec::pop`, i.e.
take the last element. -/
def BlockAllocator.allocate (a : BlockAllocator) : Option ℕ × BlockAllocator :=
  match a.free_blocks.getLast? with
  | none => (none, a)
  | some b => (some b, { free_blocks := a.free_blocks.dropLast })

/-- `BlockAllocator::free` (block_manager.rs lines 20-24): push the id only if
it is not already in the pool. -/
def BlockAllocator.free (a : BlockAllocator) (block_id : ℕ) : BlockAllocator :=
  if block_id ∈ a.free_blocks then a
  else { free_blocks := a.free_blocks ++ [block_id] }

/-- `BlockAllocator::can_allocate` (block_manager.rs lines 26-28). -/
def BlockAllocator.can_allocate (a : BlockAllocator) (num_blocks : ℕ) : Bool :=
  num_blocks ≤ a.free_blocks.length

/-! ## Scheduler — src/engine/scheduler.rs -/

/-- `Batch` (scheduler.rs lines 7-12). -/
structure Batch where
  request_ids : List String
  seq_groups : List SequenceGroup
deriving DecidableEq, Repr

/-- `Scheduler` (scheduler.rs lines 14-18); both queues have the deque front at
the list head. -/
structure Scheduler where
  config : Config
  waiting : List SequenceGroup
  running : List SequenceGroup
deriving DecidableEq, Repr

/-- `Scheduler::add_request` (scheduler.rs lines 29-32): unconditional
`push_back` onto `waiting`; the source always returns `Ok(())`. -/
def Scheduler.add_request (s : Scheduler) (seq_group : SequenceGroup) : Scheduler :=
  { s with waiting := s.waiting ++ [seq_group] }

/-- The preemption arm of the decode loop (scheduler.rs lines 58-60): set every
sequence of the group to `Waiting`. -/
def preemptGroup (g : SequenceGroup) : SequenceGroup :=
  { g with seqs := g.seqs.map (fun s => s.set_status SequenceStatus.Waiting) }

/-- The admission arm of the prefill loop (scheduler.rs lines 73-76): set every
sequence of the group to `Running`. -/
def markRunning (g : SequenceGroup) : SequenceGroup :=
  { g with seqs := g.seqs.map (fun s => s.set_status SequenceStatus.Running) }

/-- Phase 1 of `Scheduler::step` (scheduler.rs lines 44-63): walk `running`;
drop finished groups; while `current_tokens < max_num_batched_tokens` keep the
group (batching it and charging one token); otherwise preempt it to the front
of `waiting` with status `Waiting`. Arguments: the remaining `running` queue,
`current_tokens`, and the current `waiting` queue. Returns
`(scheduled, next_running, waiting, current_tokens)`. -/
def decodePhase (maxTok : ℕ) :
    List SequenceGroup → ℕ → List SequenceGroup →
      List SequenceGroup × List SequenceGroup × List SequenceGroup × ℕ
  | [], tokens, waiting => ([], [], waiting, tokens)
  | g :: rest, tokens, waiting =>
    if g.is_finished then
      decodePhase maxTok rest tokens waiting
    else if tokens < maxTok then
      let r := decodePhase maxTok rest (tokens + 1) waiting
      (g :: r.1, g :: r.2.1, r.2.2.1, r.2.2.2)
    else
      decodePhase maxTok rest tokens (preemptGroup g :: waiting)

/-- Phase 2 of `Scheduler::step` (scheduler.rs lines 67-86): pop the head of
`waiting` while `current_tokens + total_tokens ≤ max_num_batched_tokens` and
`running.len() < max_num_seqs`; admitted groups are marked `Running`, batched,
charged their total token count, and pushed onto the back of `running`; on the
first failure the head is pushed back and the loop breaks. Returns
`(scheduled, waiting, running, current_tokens)`. -/
def prefillPhase (maxTok maxSeqs : ℕ) :
    List SequenceGroup → ℕ → List SequenceGroup →
      List SequenceGroup × List SequenceGroup × List SequenceGroup × ℕ
  | [], tokens, running => ([], [], running, tokens)
  | g :: rest, tokens, running =>
    let seq_len := g.total_tokens
    if tokens + seq_len ≤ maxTok ∧ running.length < maxSeqs then
      let g' := markRunning g
      let r := prefillPhase maxTok maxSeqs rest (tokens + seq_len) (running ++ [g'])
      (g' :: r.1, r.2.1, r.2.2.1, r.2.2.2)
    else
      ([], g :: rest, running, tokens)

/-- `Scheduler::step` (scheduler.rs lines 34-92): decode phase over `running`,
then prefill phase over the (possibly extended) `waiting`, then assemble the
batch from the scheduled groups in order. -/
def Scheduler.step (s : Scheduler) : Batch × Scheduler :=
  let d := decodePhase s.config.max_num_batched_tokens s.running 0 s.waiting
  let p := prefillPhase s.config.max_num_batched_tokens s.config.max_num_seqs
    d.2.2.1 d.2.2.2 d.2.1
  let scheduled := d.1 ++ p.1
  ({ request_ids := scheduled.map (fun g => g.request_id), seq_groups := scheduled },
   { s with waiting := p.2.1, running := p.2.2.1 })

/-! ## Sampler — src/engine/sampling.rs

The float computations are idealised over `ℝ` with `f32::exp` as `Real.exp`;
the `StdRng` is the stream of draws it will produce. -/

/-- `SamplingParams` (sampling.rs lines 5-10). -/
structure SamplingParams where
  temperature : ℝ
  top_p : ℝ
  top_k : ℕ
  seed : ℕ

/-- `impl Default for SamplingParams` (sampling.rs lines 12-21). -/
noncomputable def SamplingParams.default : SamplingParams :=
  { temperature := 7 / 10, top_p := 9 / 10, top_k := 50, seed := 42 }

/-- `Iterator::max_by` over `(index, value)` pairs with `total_cmp`
(sampling.rs lines 42-45): Rust's `max_by` keeps the LAST maximal element, so
the accumulator is replaced whenever `best.2 ≤ v`. -/
noncomputable def argmaxP : List ℝ → ℕ → ℕ × ℝ → ℕ × ℝ
  | [], _, best => best
  | v :: rest, i, best =>
    argmaxP rest (i + 1) (if best.2 ≤ v then (i, v) else best)

/-- The greedy branch of `Sampler::sample` (sampling.rs lines 41-48):
`argmax` with `unwrap_or(0)` on an empty vector. -/
noncomputable def argmaxLast : List ℝ → ℕ
  | [] => 0
  | v :: rest => (argmaxP rest 1 (0, v)).1

/-- The max-subtraction base (sampling.rs line 52): `fold(NEG_INFINITY, max)`,
which on a non-empty NaN-free vector is the list maximum; idealised by seeding
the fold with the head (`0` for the empty vector, which the source never
produces here). -/
noncomputable def maxVal (l : List ℝ) : ℝ := l.foldl max (l.headD 0)

/-- Softmax with max-subtraction stabilisation (sampling.rs lines 52-55). -/
noncomputable def softmax (l : List ℝ) : List ℝ :=
  let m := maxVal l
  let exps := l.map (fun p => Real.exp (p - m))
  exps.map (fun e => e / exps.sum)

/-- The inverse-CDF walk (sampling.rs lines 59-65): running `cdf`, current
index, and the vector length for the fallback. -/
noncomputable def invCDFAux (r : ℝ) : List ℝ → ℝ → ℕ → ℕ → ℕ
  | [], _, _, n => n - 1
  | p :: rest, cdf, i, n =>
    if r ≤ cdf + p then i else invCDFAux r rest (cdf + p) (i + 1) n

/-- Weighted inverse-CDF selection (sampling.rs lines 58-66); the fallback
`probs.len() - 1` (a `u32` subtraction in the source, which would wrap on an
empty vector) is `ℕ` truncated subtraction here. -/
noncomputable def invCDF (r : ℝ) (probs : List ℝ) : ℕ :=
  invCDFAux r probs 0 0 probs.length

/-- `Sampler::sample` (sampling.rs lines 34-67) on one logits row: greedy
argmax below the 1e-5 temperature threshold (the rng stream untouched),
otherwise temperature scaling, softmax, and one inverse-CDF draw consuming the
head of the stream. Returns the token and the remaining stream. -/
noncomputable def Sampler.sample (logits : List ℝ) (params : SamplingParams)
    (stream : List ℝ) : ℕ × List ℝ :=
  if params.temperature < 1 / 100000 then
    (argmaxLast logits, stream)
  else
    let scaled := logits.map (fun p => p / params.temperature)
    let probs := softmax scaled
    (invCDF (stream.headD 0) probs, stream.tail)

/-! ### Sampler pipeline as the specification words it (for refinement
comparison against `Sampler.sample`) -/

/-- Modelled from the spec (§4.4 step 1): `argmax(logits)` with ties broken by
the smallest index — the accumulator is replaced only on a strict increase. -/
noncomputable def argmaxFirstP : List ℝ → ℕ → ℕ × ℝ → ℕ × ℝ
  | [], _, best => best
  | v :: rest, i, best =>
    argmaxFirstP rest (i + 1) (if best.2 < v then (i, v) else best)

/-- Modelled from the spec (§4.4 step 1): smallest-index argmax. -/
noncomputable def argmaxFirst : List ℝ → ℕ
  | [] => 0
  | v :: rest => (argmaxFirstP rest 1 (0, v)).1

/-- Renormalise a probability vector to sum 1 (spec §4.4 steps 3-4). -/
noncomputable def renormalize (l : List ℝ) : List ℝ :=
  l.map (fun p => p / l.sum)

/-- Number of entries strictly greater than `x`. -/
noncomputable def countGreater (l : List ℝ) (x : ℝ) : ℕ :=
  (l.filter (fun q => x < q)).length

/-- Sum of the entries strictly greater than `x`. -/
noncomputable def sumGreater (l : List ℝ) (x : ℝ) : ℝ :=
  (l.filter (fun q => x < q)).sum

/-- Modelled from the spec (§4.4 step 3): if `top_k > 0`, zero out all but the
k largest probabilities and renormalise (an entry is among the k largest iff
fewer than k entries strictly exceed it). -/
noncomputable def topKFilter (k : ℕ) (probs : List ℝ) : List ℝ :=
  if k = 0 then probs
  else renormalize (probs.map (fun p => if countGreater probs p < k then p else 0))

/-- Modelled from the spec (§4.4 step 4): if `top_p < 1`, keep the smallest
descending-prefix whose cumulative sum reaches `top_p` and renormalise (an
entry is in that prefix iff the entries strictly above it sum below `top_p`). -/
noncomputable def topPFilter (tp : ℝ) (probs : List ℝ) : List ℝ :=
  if 1 ≤ tp then probs
  else renormalize (probs.map (fun p => if sumGreater probs p < tp then p else 0))

/-- Modelled from the spec (§4.4 steps 1-5): the sampling pipeline as the
specification describes it, with top-k and top-p filtering between softmax and
the inverse-CDF draw. -/
noncomputable def sampleSpec (logits : List ℝ) (params : SamplingParams)
    (stream : List ℝ) : ℕ × List ℝ :=
  if params.temperature < 1 / 100000 then
    (argmaxFirst logits, stream)
  else
    let scaled := logits.map (fun p => p / params.temperature)
    let probs := topPFilter params.top_p (topKFilter params.top_k (softmax scaled))
    (invCDF (stream.headD 0) probs, stream.tail)

/-! ## Engine — src/engine/llm_engine.rs -/

/-- The engine state mutated by `add_request` (llm_engine.rs lines 78-93): the
scheduler and the monotone request counter. -/
structure EngineState where
  scheduler : Scheduler
  request_counter : ℕ
deriving DecidableEq, Repr

/-- `format!("req_{}", counter)` (llm_engine.rs line 80). -/
def reqIdOf (counter : ℕ) : String := "req_" ++ toString counter

/-- `LLMEngine::add_request` (llm_engine.rs lines 78-93): draw a counter value,
tokenize the prompt, wrap it in a fresh `Waiting` sequence group (holding the
response sender) and enqueue it with `Scheduler::add_request`; the source
returns the request id and can fail only inside the external tokenizer. -/
def addRequest (encode : Str → List TokenId) (st : EngineState) (prompt : Str) :
    String × EngineState :=
  let counter := st.request_counter
  let req_id := reqIdOf counter
  let token_ids := encode prompt
  let seq := Sequence.new counter prompt token_ids true
  let sg := SequenceGroup.new req_id [seq]
  (req_id,
   { scheduler := st.scheduler.add_request sg, request_counter := counter + 1 })

/-- The per-sequence body of the `LLMEngine::step` result loop (llm_engine.rs
lines 126-149): append the sampled token; transition to `Finished` if it equals
the end-of-text id; decode the full output and send the suffix extending the
previous `output_text` (if non-empty and the sender is still held); drop the
sender when finished. Returns the updated sequence and the delta sent. -/
def processToken (decode : List TokenId → Str) (eos_token : Option TokenId)
    (seq : Sequence) (next_token : TokenId) : Sequence × Option Str :=
  let s1 := seq.append_token_id next_token
  let s2 := if some next_token = eos_token then
      s1.set_status SequenceStatus.Finished
    else s1
  let full_text := decode s2.output_token_ids
  let new_text := full_text.drop s2.output_text.length
  let s3 := { s2 with output_text := full_text }
  let sent := if new_text = [] then none
    else if s3.sender then some new_text else none
  let s4 := if s3.is_finished then { s3 with sender := false } else s3
  (s4, sent)

/-- `running_mut().iter_mut().find(...)` followed by `seqs.first_mut()`
(llm_engine.rs lines 124-125): update the first sequence of the first running
group whose request id matches, collecting the delta it sent. -/
def updateFirstGroup (rid : String) (f : Sequence → Sequence × Option Str) :
    List SequenceGroup → List SequenceGroup × Option Str
  | [] => ([], none)
  | g :: gs =>
    if g.request_id = rid then
      match g.seqs with
      | [] => (g :: gs, none)
      | sq :: rest =>
        let r := f sq
        ({ g with seqs := r.1 :: rest } :: gs, r.2)
    else
      let r := updateFirstGroup rid f gs
      (g :: r.1, r.2)

/-- The result loop of `LLMEngine::step` (llm_engine.rs lines 119-152): for
each batch entry in order, sample a next token from its logits row with
`SamplingParams::default()` and apply `processToken` to the matching running
sequence. Returns the updated running queue, the remaining rng stream, the
deltas sent (in order), and the sampling parameters used per call. -/
noncomputable def stepLoop (decode : List TokenId → Str) (eos : Option TokenId) :
    List (String × List ℝ) → List SequenceGroup → List ℝ →
      List SequenceGroup × List ℝ × List Str × List SamplingParams
  | [], running, stream => (running, stream, [], [])
  | (rid, logits) :: rest, running, stream =>
    let sres := Sampler.sample logits SamplingParams.default stream
    let ures := updateFirstGroup rid
      (fun sq => processToken decode eos sq sres.1) running
    let rres := stepLoop decode eos rest ures.1 sres.2
    (rres.1, rres.2.1, ures.2.toList ++ rres.2.2.1,
     SamplingParams.default :: rres.2.2.2)

/-- Iterated `processToken` on one sequence across successive engine steps:
the token stream a sequence receives while it stays in `running`. Returns the
final sequence and the concatenated trace of deltas sent. -/
def runTokens (decode : List TokenId → Str) (eos : Option TokenId)
    (s : Sequence) : List TokenId → Sequence × List Str
  | [] => (s, [])
  | t :: ts =>
    let r := processToken decode eos s t
    let rec_ := runTokens decode eos r.1 ts
    (rec_.1, r.2.toList ++ rec_.2)

/-! ## Theorems -/

/-- C8: `BlockAllocator::free` is idempotent — freeing a block already in the
free pool leaves the allocator unchanged, and `free(b); free(b)` equals a
single `free(b)`, so a block is returned to the pool at most once. -/
theorem C8_free_idempotent (a : BlockAllocator) (b : ℕ) :
    (a.free b).free b = a.free b ∧ (b ∈ a.free_blocks → a.free b = a) := by
  by_cases h : b ∈ a.free_blocks <;> simp [BlockAllocator.free, h]

/-- C8 witness: freeing block 0, already in the pool `[0, 1]`, is a no-op. -/
theorem C8_free_idempotent_witness :
    BlockAllocator.free { free_blocks := [0, 1] } 0 = { free_blocks := [0, 1] } :=
  (C8_free_idempotent { free_blocks := [0, 1] } 0).2 (by decide)

/-- C9: `Config::validate` returns `Ok` exactly when every numeric bound is at
least 1, `gpu_memory_utilization` lies in `[0, 1]`, and speculative decoding
implies a draft model is supplied. -/
theorem C9_validate_ok_iff (c : Config) :
    c.validate = Except.ok () ↔
      (1 ≤ c.max_num_batched_tokens ∧ 1 ≤ c.max_num_seqs ∧ 1 ≤ c.max_model_len ∧
       (0 ≤ c.gpu_memory_utilization ∧ c.gpu_memory_utilization ≤ 1) ∧
       1 ≤ c.tensor_parallel_size ∧ 1 ≤ c.kvcache_block_size ∧
       (c.speculative_decoding = true → c.draft_model ≠ none) ∧
       1 ≤ c.num_speculative_tokens) := by
  unfold Config.validate
  by_cases h1 : c.max_num_batched_tokens = 0
  · rw [if_pos h1]
    simp only [reduceCtorEq, false_iff]
    intro hc
    exact absurd hc.1 (by omega)
  rw [if_neg h1]
  by_cases h2 : c.max_num_seqs = 0
  · rw [if_pos h2]
    simp only [reduceCtorEq, false_iff]
    intro hc
    exact absurd hc.2.1 (by omega)
  rw [if_neg h2]
  by_cases h3 : c.max_model_len = 0
  · rw [if_pos h3]
    simp only [reduceCtorEq, false_iff]
    intro hc
    exact absurd hc.2.2.1 (by omega)
  rw [if_neg h3]
  by_cases h4 : 0 ≤ c.gpu_memory_utilization ∧ c.gpu_memory_utilization ≤ 1
  case neg =>
    rw [if_pos h4]
    simp only [reduceCtorEq, false_iff]
    intro hc
    exact h4 hc.2.2.2.1
  rw [if_neg (not_not_intro h4)]
  by_cases h5 : c.tensor_parallel_size = 0
  · rw [if_pos h5]
    simp only [reduceCtorEq, false_iff]
    intro hc
    exact absurd hc.2.2.2.2.1 (by omega)
  rw [if_neg h5]
  by_cases h6 : c.kvcache_block_size = 0
  · rw [if_pos h6]
    simp only [reduceCtorEq, false_iff]
    intro hc
    exact absurd hc.2.2.2.2.2.1 (by omega)
  rw [if_neg h6]
  by_cases h7 : c.speculative_decoding = true ∧ c.draft_model = none
  · rw [if_pos (by simp only [Bool.and_eq_true, Option.isNone_iff_eq_none]; exact h7)]
    simp only [reduceCtorEq, false_iff]
    intro hc
    exact hc.2.2.2.2.2.2.1 h7.1 h7.2
  rw [if_neg (by simp only [Bool.and_eq_true, Option.isNone_iff_eq_none]; exact h7)]
  by_cases h8 : c.num_speculative_tokens = 0
  · rw [if_pos h8]
    simp only [reduceCtorEq, false_iff]
    intro hc
    exact absurd hc.2.2.2.2.2.2.2 (by omega)
  rw [if_neg h8]
  simp only [true_iff]
  exact ⟨Nat.one_le_iff_ne_zero.mpr h1, Nat.one_le_iff_ne_zero.mpr h2,
    Nat.one_le_iff_ne_zero.mpr h3, h4, Nat.one_le_iff_ne_zero.mpr h5,
    Nat.one_le_iff_ne_zero.mpr h6, fun hs hd => h7 ⟨hs, hd⟩,
    Nat.one_le_iff_ne_zero.mpr h8⟩

/-- C9 witness: the default configuration validates. -/
theorem C9_validate_ok_iff_witness : Config.default.validate = Except.ok () :=
  (C9_validate_ok_iff Config.default).mpr (by norm_num [Config.default])

/-- C1 counterexample: with `max_model_len = 4`, a running sequence whose total
length after the appended token is 5 (≥ 4) stays `Running` with its sink still
open when the sampled token (9) is not the end-of-text id (0) — the engine
step has no length-based stop condition, contradicting the claim that reaching
`max_model_len` transitions the sequence to `Finished`. -/
theorem C1_no_length_stop :
    ((processToken (fun _ => []) (some 0)
        { seq_id := 5, prompt := [], prompt_token_ids := [1, 2, 3],
          output_token_ids := [7], output_text := [],
          status := SequenceStatus.Running, sender := true } 9).1.status =
      SequenceStatus.Running) ∧
    ((processToken (fun _ => []) (some 0)
        { seq_id := 5, prompt := [], prompt_token_ids := [1, 2, 3],
          output_token_ids := [7], output_text := [],
          status := SequenceStatus.Running, sender := true } 9).1.sender = true) ∧
    (4 ≤ (processToken (fun _ => []) (some 0)
        { seq_id := 5, prompt := [], prompt_token_ids := [1, 2, 3],
          output_token_ids := [7], output_text := [],
          status := SequenceStatus.Running, sender := true } 9).1.get_len) := by
  decide

/-- C1 (amended): after the engine step appends a sampled token to a running
sequence, the sequence transitions to `Finished` (and its sink is closed)
exactly when the token equals the model's end-of-text id; no other stop
condition (in particular no `max_model_len` length check) is evaluated. -/
theorem C1_finished_iff_eos (decode : List TokenId → Str) (eos : Option TokenId)
    (s : Sequence) (t : TokenId) (hs : s.status = SequenceStatus.Running)
    (hsnd : s.sender = true) :
    ((processToken decode eos s t).1.status = SequenceStatus.Finished ↔
      some t = eos) ∧
    ((processToken decode eos s t).1.sender = false ↔ some t = eos) ∧
    (processToken decode eos s t).1.output_token_ids = s.output_token_ids ++ [t] := by
  unfold processToken
  by_cases he : some t = eos
  · simp [he, Sequence.append_token_id, Sequence.set_status, Sequence.is_finished]
  · simp [he, Sequence.append_token_id, Sequence.set_status, Sequence.is_finished,
      hs, hsnd]

/-- C1 witness: a running sequence that samples the end-of-text id 2 finishes. -/
theorem C1_finished_iff_eos_witness :
    (processToken (fun _ => []) (some 2)
        { seq_id := 0, prompt := [], prompt_token_ids := [1],
          output_token_ids := [], output_text := [],
          status := SequenceStatus.Running, sender := true } 2).1.status =
      SequenceStatus.Finished :=
  ((C1_finished_iff_eos (fun _ => []) (some 2)
      { seq_id := 0, prompt := [], prompt_token_ids := [1],
        output_token_ids := [], output_text := [],
        status := SequenceStatus.Running, sender := true } 2 rfl rfl).1).mpr rfl

/-- Engine state used by the C2 counterexample: `max_model_len = 32`, empty
queues. -/
def stC2 : EngineState :=
  { scheduler :=
      { config := { Config.default with max_model_len := 32 },
        waiting := [], running := [] },
    request_counter := 0 }

/-- Tokenizer stub used by the C2 counterexample: every prompt tokenizes to 40
ids. -/
def encode40 : Str → List TokenId := fun _ => List.replicate 40 0

/-- C2 counterexample: with `max_model_len = 32` and a prompt tokenizing to 40
ids, `add_request` does not fail — the sequence group is enqueued onto the
scheduler's waiting queue, changing the scheduler state, contrary to the
claimed `PromptTooLong` rejection (no such check exists in the source). -/
theorem C2_overlong_prompt_enqueued :
    (encode40 ['h', 'i']).length = 40 ∧
    stC2.scheduler.config.max_model_len = 32 ∧
    (addRequest encode40 stC2 ['h', 'i']).2.scheduler.waiting =
      [SequenceGroup.new "req_0"
        [Sequence.new 0 ['h', 'i'] (List.replicate 40 0) true]] ∧
    (addRequest encode40 stC2 ['h', 'i']).2.scheduler.waiting ≠
      stC2.scheduler.waiting := by
  decide

/-- C2 (amended): `add_request` never fails and never checks the tokenized
prompt length against `max_model_len`; for every prompt it appends exactly one
fresh `Waiting` sequence group to the scheduler's waiting queue, leaves the
running queue and config untouched, increments the request counter, and
returns the `req_{counter}` id. -/
theorem C2_addRequest_always_enqueues (encode : Str → List TokenId)
    (st : EngineState) (prompt : Str) :
    (addRequest encode st prompt).2.scheduler.waiting =
      st.scheduler.waiting ++
        [SequenceGroup.new (reqIdOf st.request_counter)
          [Sequence.new st.request_counter prompt (encode prompt) true]] ∧
    (addRequest encode st prompt).2.scheduler.running = st.scheduler.running ∧
    (addRequest encode st prompt).2.scheduler.config = st.scheduler.config ∧
    (addRequest encode st prompt).2.request_counter = st.request_counter + 1 ∧
    (addRequest encode st prompt).1 = reqIdOf st.request_counter :=
  ⟨rfl, rfl, rfl, rfl, rfl⟩

/-- A one-sequence `Running` group used by the scheduler counterexamples:
prompt of one token, nothing generated yet. -/
def runGroup (rid : String) (sid : ℕ) : SequenceGroup :=
  { request_id := rid,
    seqs := [{ seq_id := sid, prompt := [], prompt_token_ids := [0],
               output_token_ids := [], output_text := [],
               status := SequenceStatus.Running, sender := false }] }

/-- C3 counterexample: with `max_num_batched_tokens = 1` and two running
groups, the walk schedules only the first; the second — not added to the batch
— does not remain in `running`: it is moved to `waiting` with its sequence set
to `Waiting`, contrary to the claim that deferred groups stay in `running`
with status `Running`. -/
theorem C3_budget_exhausted_preempts :
    (Scheduler.step
        { config := { Config.default with max_num_batched_tokens := 1 },
          waiting := [], running := [runGroup "A" 0, runGroup "B" 1] }).1.seq_groups =
      [runGroup "A" 0] ∧
    (Scheduler.step
        { config := { Config.default with max_num_batched_tokens := 1 },
          waiting := [], running := [runGroup "A" 0, runGroup "B" 1] }).2.running =
      [runGroup "A" 0] ∧
    (Scheduler.step
        { config := { Config.default with max_num_batched_tokens := 1 },
          waiting := [], running := [runGroup "A" 0, runGroup "B" 1] }).2.waiting =
      [preemptGroup (runGroup "B" 1)] ∧
    ((preemptGroup (runGroup "B" 1)).seqs.all
      (fun sq => decide (sq.status = SequenceStatus.Waiting)) = true) := by
  decide

/-- C3 (amended): closed form of the decode phase — the walk keeps (and
batches) exactly the first `max_num_batched_tokens - current_tokens`
non-finished running groups; every remaining non-finished group is preempted:
removed from `running`, its sequences set to `Waiting`, and pushed onto the
front of the waiting queue (ending up there in reverse order); finished groups
are dropped; one token is charged per batched group. -/
theorem C3_decodePhase_closed_form (maxTok : ℕ) (running : List SequenceGroup) :
    ∀ (tokens : ℕ) (waiting : List SequenceGroup),
    decodePhase maxTok running tokens waiting =
      ((running.filter (fun g => !g.is_finished)).take (maxTok - tokens),
       (running.filter (fun g => !g.is_finished)).take (maxTok - tokens),
       (((running.filter (fun g => !g.is_finished)).drop (maxTok - tokens)).map
          preemptGroup).reverse ++ waiting,
       tokens + min (maxTok - tokens)
         (running.filter (fun g => !g.is_finished)).length) := by
  induction running with
  | nil => intro tokens waiting; simp [decodePhase]
  | cons g rest ih =>
    intro tokens waiting
    by_cases hf : g.is_finished
    · simpa [decodePhase, hf] using ih tokens waiting
    · by_cases ht : tokens < maxTok
      · obtain ⟨m, hm⟩ : ∃ m, maxTok - tokens = m + 1 :=
          ⟨maxTok - tokens - 1, by omega⟩
        have hm1 : maxTok - (tokens + 1) = m := by omega
        simp only [decodePhase, hf, ht, if_true, if_false, Bool.false_eq_true,
          ih (tokens + 1) waiting, List.filter_cons, Bool.not_eq_eq_eq_not,
          Bool.not_true, hm, hm1]
        simp only [Bool.not_eq_true] at hf
        simp [hf, List.take_succ_cons, List.drop_succ_cons]
        omega
      · have hk : maxTok - tokens = 0 := by omega
        simp only [decodePhase, hf, ht, if_false, Bool.false_eq_true,
          ih tokens (preemptGroup g :: waiting), hk]
        simp only [Bool.not_eq_true] at hf
        simp [hf]

/-- `markRunning` does not change a group's total token count (statuses do not
enter `get_len`). -/
theorem markRunning_total_tokens (g : SequenceGroup) :
    (markRunning g).total_tokens = g.total_tokens := by
  unfold markRunning SequenceGroup.total_tokens
  rw [List.map_map]
  rfl

/-- Every sequence of a `markRunning` group has status `Running`. -/
theorem markRunning_statuses (g : SequenceGroup) :
    (markRunning g).seqs.all
      (fun sq => decide (sq.status = SequenceStatus.Running)) = true := by
  simp [markRunning, Sequence.set_status, List.all_eq_true]

/-- Characterisation of the prefill loop: the admitted groups are a prefix of
`waiting` (marked `Running`), appended in order to `running`; each is charged
its total token count; and if any group is left in `waiting`, the admission
condition fails at its head. -/
theorem prefillPhase_spec (maxTok maxSeqs : ℕ) :
    ∀ (waiting : List SequenceGroup) (tokens : ℕ) (running : List SequenceGroup),
    (prefillPhase maxTok maxSeqs waiting tokens running).2.2.1 =
        running ++ (prefillPhase maxTok maxSeqs waiting tokens running).1 ∧
    (prefillPhase maxTok maxSeqs waiting tokens running).2.2.2 =
        tokens + (((prefillPhase maxTok maxSeqs waiting tokens running).1).map
          SequenceGroup.total_tokens).sum ∧
    (∃ n, (prefillPhase maxTok maxSeqs waiting tokens running).1 =
            (waiting.take n).map markRunning ∧
          (prefillPhase maxTok maxSeqs waiting tokens running).2.1 =
            waiting.drop n) ∧
    ((prefillPhase maxTok maxSeqs waiting tokens running).1.all
        (fun gr => gr.seqs.all
          (fun sq => decide (sq.status = SequenceStatus.Running))) = true) ∧
    (∀ g₀ rest₀,
      (prefillPhase maxTok maxSeqs waiting tokens running).2.1 = g₀ :: rest₀ →
      ¬((prefillPhase maxTok maxSeqs waiting tokens running).2.2.2 +
          g₀.total_tokens ≤ maxTok ∧
        (prefillPhase maxTok maxSeqs waiting tokens running).2.2.1.length <
          maxSeqs)) := by
  intro waiting
  induction waiting with
  | nil =>
    intro tokens running
    refine ⟨by simp [prefillPhase], by simp [prefillPhase], ⟨0, by simp [prefillPhase]⟩,
      by simp [prefillPhase], ?_⟩
    intro g₀ rest₀ h
    simp [prefillPhase] at h
  | cons g rest ih =>
    intro tokens running
    by_cases hc : tokens + g.total_tokens ≤ maxTok ∧ running.length < maxSeqs
    · obtain ⟨ih1, ih2, ⟨n, ihn1, ihn2⟩, ih4, ih5⟩ :=
        ih (tokens + g.total_tokens) (running ++ [markRunning g])
      simp only [prefillPhase, if_pos hc]
      refine ⟨?_, ?_, ⟨n + 1, ?_, ?_⟩, ?_, ?_⟩
      · rw [ih1, List.append_assoc]
        rfl
      · rw [ih2, List.map_cons, List.sum_cons, markRunning_total_tokens]
        omega
      · rw [List.take_succ_cons, List.map_cons, ihn1]
      · rw [List.drop_succ_cons, ihn2]
      · simp only [List.all_cons, ih4, markRunning_statuses, Bool.and_self]
      · exact ih5
    · simp only [prefillPhase, if_neg hc]
      refine ⟨by simp, by simp, ⟨0, by simp, by simp⟩, by simp, ?_⟩
      intro g₀ rest₀ h
      obtain ⟨hg, -⟩ := List.cons.inj h
      rw [hg] at hc
      exact hc


/-- A preempted one-sequence group used by the C4 counterexample: prompt
length 2, three generated tokens (total 5), back in `Waiting`. -/
def preemptedGroupEx : SequenceGroup :=
  { request_id := "P",
    seqs := [{ seq_id := 7, prompt := [], prompt_token_ids := [1, 2],
               output_token_ids := [5, 6, 7], output_text := [],
               status := SequenceStatus.Waiting, sender := false }] }

/-- C4 counterexample: head group with prompt length 2 but total token count 5,
token budget 2, empty running queue, `max_num_seqs = 10` — the claim's
admission condition holds (budget 2 ≥ prompt length 2 and 0 running groups),
yet the prefill phase admits nothing and leaves `waiting` unchanged, because
the source charges `total_tokens` (prompt + generated), not the prompt
length. -/
theorem C4_budget_uses_total_tokens :
    ((preemptedGroupEx.seqs.map (fun sq => sq.prompt_token_ids.length)).sum = 2) ∧
    preemptedGroupEx.total_tokens = 5 ∧
    prefillPhase 2 10 [preemptedGroupEx] 0 [] = ([], [preemptedGroupEx], [], 0) := by
  decide

/-- C4 (amended): on each tick the prefill phase admits the head of the
waiting queue exactly when the number of running groups is below
`max_num_seqs` and the remaining token budget is at least the head group's
TOTAL token count (prompt plus generated tokens); an admitted group is marked
`Running`, charged its total token count, and appended to `running`; when the
head does not fit, no later waiting group is admitted and the waiting queue is
left as it was. -/
theorem C4_prefill_admission (maxTok maxSeqs tokens : ℕ) (g : SequenceGroup)
    (rest running : List SequenceGroup) :
    ((prefillPhase maxTok maxSeqs (g :: rest) tokens running).1 ≠ [] ↔
        (tokens + g.total_tokens ≤ maxTok ∧ running.length < maxSeqs)) ∧
    ((tokens + g.total_tokens ≤ maxTok ∧ running.length < maxSeqs) →
        (prefillPhase maxTok maxSeqs (g :: rest) tokens running).1.head? =
          some (markRunning g)) ∧
    (¬(tokens + g.total_tokens ≤ maxTok ∧ running.length < maxSeqs) →
        prefillPhase maxTok maxSeqs (g :: rest) tokens running =
          ([], g :: rest, running, tokens)) ∧
    ((prefillPhase maxTok maxSeqs (g :: rest) tokens running).2.2.1 =
        running ++ (prefillPhase maxTok maxSeqs (g :: rest) tokens running).1) ∧
    ((prefillPhase maxTok maxSeqs (g :: rest) tokens running).2.2.2 =
        tokens + (((prefillPhase maxTok maxSeqs (g :: rest) tokens running).1).map
          SequenceGroup.total_tokens).sum) ∧
    ((prefillPhase maxTok maxSeqs (g :: rest) tokens running).1.all
        (fun gr => gr.seqs.all
          (fun sq => decide (sq.status = SequenceStatus.Running))) = true) := by
  obtain ⟨h1, h2, -, h4, -⟩ := prefillPhase_spec maxTok maxSeqs (g :: rest) tokens running
  refine ⟨?_, ?_, ?_, h1, h2, h4⟩
  · by_cases hc : tokens + g.total_tokens ≤ maxTok ∧ running.length < maxSeqs
    · simp only [prefillPhase, if_pos hc]
      simp [hc]
    · simp only [prefillPhase, if_neg hc]
      simp [hc]
  · intro hc
    simp only [prefillPhase, if_pos hc, List.head?_cons]
  · intro hc
    simp only [prefillPhase, if_neg hc]

/-- C4 witness: a fresh waiting group with total token count 3 is admitted
under budget 10 and sequence cap 2. -/
theorem C4_prefill_admission_witness :
    (prefillPhase 10 2
        [{ request_id := "W",
           seqs := [{ seq_id := 3, prompt := [], prompt_token_ids := [1, 2, 3],
                      output_token_ids := [], output_text := [],
                      status := SequenceStatus.Waiting, sender := true }] }]
        0 []).1.head? =
      some (markRunning
        { request_id := "W",
          seqs := [{ seq_id := 3, prompt := [], prompt_token_ids := [1, 2, 3],
                     output_token_ids := [], output_text := [],
                     status := SequenceStatus.Waiting, sender := true }] }) :=
  (C4_prefill_admission 10 2 0
      { request_id := "W",
        seqs := [{ seq_id := 3, prompt := [], prompt_token_ids := [1, 2, 3],
                   output_token_ids := [], output_text := [],
                   status := SequenceStatus.Waiting, sender := true }] }
      [] []).2.1 (by decide)

/-- Invariants of the `max_by` fold underlying `argmaxLast`: starting from a
best pair whose index lies below the next position `i`, the fold returns an
in-range index, its value dominates the seed and every list element, every
element strictly after the returned index is strictly below the returned
value, and the returned pair is either the seed or an indexed list element. -/
theorem argmaxP_spec (l : List ℝ) :
    ∀ (i : ℕ) (b : ℕ × ℝ), b.1 < i →
    (argmaxP l i b).1 < i + l.length ∧
    b.2 ≤ (argmaxP l i b).2 ∧
    (∀ j, j < l.length → l.getD j 0 ≤ (argmaxP l i b).2) ∧
    (∀ j, j < l.length → (argmaxP l i b).1 < i + j → l.getD j 0 < (argmaxP l i b).2) ∧
    (argmaxP l i b = b ∨
      ∃ j, j < l.length ∧ argmaxP l i b = (i + j, l.getD j 0)) := by
  induction l with
  | nil =>
    intro i b hb
    refine ⟨by simpa [argmaxP] using hb, le_refl _, ?_, ?_, Or.inl rfl⟩
    · intro j h
      exact absurd h (by simp)
    · intro j h
      exact absurd h (by simp)
  | cons v rest ih =>
    intro i b hb
    by_cases hv : b.2 ≤ v
    case pos =>
      have heq : argmaxP (v :: rest) i b = argmaxP rest (i + 1) (i, v) := by
        simp [argmaxP, hv]
      obtain ⟨A, B, C, D, F⟩ := ih (i + 1) (i, v) (Nat.lt_succ_self i)
      rw [heq]
      refine ⟨by simp only [List.length_cons]; omega, le_trans hv B, ?_, ?_, ?_⟩
      · intro j hj
        cases j with
        | zero => simpa using B
        | succ j =>
          simp only [List.getD_cons_succ]
          exact C j (by simpa using hj)
      · intro j hj hr
        cases j with
        | zero =>
          rcases F with hF | ⟨j', hj', hF⟩
          · rw [hF] at hr
            exact absurd hr (by simp)
          · rw [hF] at hr
            exact absurd hr (by simp; omega)
        | succ j =>
          simp only [List.getD_cons_succ]
          exact D j (by simpa using hj) (by omega)
      · rcases F with hF | ⟨j', hj', hF⟩
        · exact Or.inr ⟨0, by simp, by simpa using hF⟩
        · refine Or.inr ⟨j' + 1, by simpa using hj', ?_⟩
          rw [hF]
          simp only [List.getD_cons_succ, Prod.mk.injEq]
          exact ⟨by omega, trivial⟩
    case neg =>
      have heq : argmaxP (v :: rest) i b = argmaxP rest (i + 1) b := by
        simp [argmaxP, hv]
      obtain ⟨A, B, C, D, F⟩ := ih (i + 1) b (Nat.lt_succ_of_lt hb)
      rw [heq]
      have hvlt : v < b.2 := lt_of_not_le hv
      refine ⟨by simp only [List.length_cons]; omega, B, ?_, ?_, ?_⟩
      · intro j hj
        cases j with
        | zero => simpa using le_of_lt (lt_of_lt_of_le hvlt B)
        | succ j =>
          simp only [List.getD_cons_succ]
          exact C j (by simpa using hj)
      · intro j hj hr
        cases j with
        | zero => simpa using lt_of_lt_of_le hvlt B
        | succ j =>
          simp only [List.getD_cons_succ]
          exact D j (by simpa using hj) (by omega)
      · rcases F with hF | ⟨j', hj', hF⟩
        · exact Or.inl hF
        · refine Or.inr ⟨j' + 1, by simpa using hj', ?_⟩
          rw [hF]
          simp only [List.getD_cons_succ, Prod.mk.injEq]
          exact ⟨by omega, trivial⟩

/-- The value at the index returned by `argmaxLast` is the value of the fold. -/
theorem argmaxLast_getD (v : ℝ) (rest : List ℝ) :
    (v :: rest).getD (argmaxLast (v :: rest)) 0 = (argmaxP rest 1 (0, v)).2 := by
  obtain ⟨-, -, -, -, F⟩ := argmaxP_spec rest 1 (0, v) Nat.one_pos
  rcases F with hF | ⟨j, hj, hF⟩
  · simp [argmaxLast, hF]
  · simp only [argmaxLast, hF, Nat.add_comm 1 j, List.getD_cons_succ]

/-- C6 counterexample: on the tied logits `[5, 5]` with temperature `0`, the
sampler returns index 1 — `max_by` keeps the LAST maximal element — while the
claimed smallest-index tie-break would return 0. -/
theorem C6_ties_broken_to_last :
    (Sampler.sample [5, 5]
        { temperature := 0, top_p := 1, top_k := 0, seed := 42 } []).1 = 1 ∧
    argmaxFirst [5, 5] = 0 := by
  constructor
  · simp only [Sampler.sample]
    rw [if_pos (by norm_num : (0:ℝ) < 1 / 100000)]
    simp only [argmaxLast, argmaxP]
    rw [if_pos (le_refl (5:ℝ))]
  · simp only [argmaxFirst, argmaxFirstP]
    rw [if_neg (lt_irrefl (5:ℝ))]

/-- C6 (amended): for every non-empty logits vector and temperature below
1e-5, the sampler returns the index of the maximum logit with ties broken by
the LARGEST index (every strictly later entry is strictly smaller), and does
not advance the pseudo-random stream, so a repeated call on the same logits
returns the same token. -/
theorem C6_greedy_argmax (l : List ℝ) (p : SamplingParams) (s : List ℝ)
    (hl : l ≠ []) (ht : p.temperature < 1 / 100000) :
    Sampler.sample l p s = (argmaxLast l, s) ∧
    argmaxLast l < l.length ∧
    (∀ j, j < l.length → l.getD j 0 ≤ l.getD (argmaxLast l) 0) ∧
    (∀ j, j < l.length → argmaxLast l < j → l.getD j 0 < l.getD (argmaxLast l) 0) ∧
    Sampler.sample l p ((Sampler.sample l p s).2) = Sampler.sample l p s := by
  have hsample : ∀ s' : List ℝ, Sampler.sample l p s' = (argmaxLast l, s') := by
    intro s'
    simp only [Sampler.sample]
    rw [if_pos ht]
  obtain ⟨v, rest, rfl⟩ := List.exists_cons_of_ne_nil hl
  obtain ⟨A, B, C, D, -⟩ := argmaxP_spec rest 1 (0, v) Nat.one_pos
  have hval := argmaxLast_getD v rest
  refine ⟨hsample s, ?_, ?_, ?_, ?_⟩
  · simpa [argmaxLast, Nat.add_comm] using A
  · intro j hj
    rw [hval]
    cases j with
    | zero => simpa using B
    | succ j =>
      simp only [List.getD_cons_succ]
      exact C j (by simpa using hj)
  · intro j hj hgt
    rw [hval]
    cases j with
    | zero => exact absurd hgt (Nat.not_lt_zero _)
    | succ j =>
      simp only [List.getD_cons_succ]
      refine D j (by simpa using hj) ?_
      simpa [argmaxLast, Nat.add_comm] using hgt
  · simp [hsample]

/-- C6 witness: on the tied logits `[5, 5]` with temperature `0` the sampler
returns the greedy token and leaves the stream untouched. -/
theorem C6_greedy_argmax_witness :
    Sampler.sample [5, 5] { temperature := 0, top_p := 1, top_k := 0, seed := 42 } [] =
      (argmaxLast [5, 5], []) :=
  (C6_greedy_argmax [5, 5] { temperature := 0, top_p := 1, top_k := 0, seed := 42 } []
    (by simp) (by norm_num)).1

/-- C10: the engine's step loop samples every batch entry with the fixed
default sampling parameters (temperature 0.7, top-p 0.9, top-k 50, seed 42) —
the trace of parameters it passes to the sampler is constantly
`SamplingParams.default` — and with those parameters the sampler always takes
the stochastic branch (temperature 0.7 is not below 1e-5): it computes the
softmax of the temperature-scaled logits and consumes one draw from the
stream, never the greedy path. -/
theorem C10_step_uses_default_params (decode : List TokenId → Str)
    (eos : Option TokenId) (entries : List (String × List ℝ))
    (running : List SequenceGroup) (stream : List ℝ) :
    (stepLoop decode eos entries running stream).2.2.2 =
      entries.map (fun _ => SamplingParams.default) ∧
    (∀ (logits s : List ℝ),
      Sampler.sample logits SamplingParams.default s =
        (invCDF (s.headD 0)
          (softmax (logits.map (fun q => q / SamplingParams.default.temperature))),
         s.tail)) := by
  constructor
  · induction entries generalizing running stream with
    | nil => simp [stepLoop]
    | cons e rest ih =>
      obtain ⟨rid, logits⟩ := e
      simp [stepLoop, ih]
  · intro logits s
    simp only [Sampler.sample]
    rw [if_neg (by norm_num [SamplingParams.default])]



/-- Evaluation of the stabilised softmax at the logits `[log 3, 0]`: the max is
`log 3`, the exponentials are `[1, 1/3]`, so the probabilities are
`[3/4, 1/4]`. -/
theorem softmax_log3 : softmax [Real.log 3, 0] = [3 / 4, 1 / 4] := by
  have hlog : (0:ℝ) ≤ Real.log 3 := Real.log_nonneg (by norm_num)
  have h3 : Real.exp (Real.log 3) = 3 := Real.exp_log (by norm_num)
  unfold softmax maxVal
  simp only [List.headD_cons, List.foldl_cons, List.foldl_nil, max_self,
    max_eq_left hlog, List.map_cons, List.map_nil, sub_self, Real.exp_zero,
    zero_sub, Real.exp_neg, h3, List.sum_cons, List.sum_nil]
  norm_num

/-- The inverse-CDF walk at draw 7/8 over `[3/4, 1/4]` passes the first entry
(7/8 > 3/4) and stops at the second. -/
theorem invCDF_at_34 : invCDF (7 / 8) [3 / 4, 1 / 4] = 1 := by
  unfold invCDF invCDFAux
  rw [if_neg (by norm_num : ¬((7:ℝ) / 8 ≤ 0 + 3 / 4))]
  unfold invCDFAux
  rw [if_pos (by norm_num : ((7:ℝ) / 8 ≤ 0 + 3 / 4 + 1 / 4))]

/-- The spec-described top-1 filter on `[3/4, 1/4]` keeps only the first entry
and renormalises it to `[1, 0]`. -/
theorem topK_at_34 : topKFilter 1 [3 / 4, 1 / 4] = [1, 0] := by
  unfold topKFilter countGreater renormalize
  rw [if_neg (by norm_num : ¬(1 = 0))]
  norm_num

/-- The inverse-CDF walk at draw 7/8 over the filtered `[1, 0]` stops at the
first entry. -/
theorem invCDF_at_10 : invCDF (7 / 8) [1, 0] = 0 := by
  unfold invCDF invCDFAux
  rw [if_pos (by norm_num : ((7:ℝ) / 8 ≤ 0 + 1))]

/-- C5 counterexample: at logits `[log 3, 0]` (softmax `[3/4, 1/4]`) with
temperature 1, `top_k = 1`, `top_p = 1` and draw 7/8, the sampler returns
token 1, but the claimed pipeline with top-k filtering applied (keeping only
the most probable token) can only return token 0 — `Sampler::sample` never
applies top-k or top-p filtering. -/
theorem C5_no_topk_filtering :
    (Sampler.sample [Real.log 3, 0]
        { temperature := 1, top_p := 1, top_k := 1, seed := 42 } [7 / 8]).1 = 1 ∧
    (sampleSpec [Real.log 3, 0]
        { temperature := 1, top_p := 1, top_k := 1, seed := 42 } [7 / 8]).1 = 0 ∧
    (Sampler.sample [Real.log 3, 0]
        { temperature := 1, top_p := 1, top_k := 1, seed := 42 } [7 / 8]).1 ≠
      (sampleSpec [Real.log 3, 0]
        { temperature := 1, top_p := 1, top_k := 1, seed := 42 } [7 / 8]).1 := by
  have hscaled :
      List.map (fun p => p / (1:ℝ)) [Real.log 3, 0] = [Real.log 3, 0] := by
    norm_num
  have hcode :
      (Sampler.sample [Real.log 3, 0]
        { temperature := 1, top_p := 1, top_k := 1, seed := 42 } [7 / 8]).1 = 1 := by
    simp only [Sampler.sample]
    rw [if_neg (by norm_num : ¬((1:ℝ) < 1 / 100000))]
    simp only [hscaled, softmax_log3, List.headD_cons]
    exact invCDF_at_34
  have hspec :
      (sampleSpec [Real.log 3, 0]
        { temperature := 1, top_p := 1, top_k := 1, seed := 42 } [7 / 8]).1 = 0 := by
    simp only [sampleSpec]
    rw [if_neg (by norm_num : ¬((1:ℝ) < 1 / 100000))]
    simp only [hscaled, softmax_log3, topK_at_34, List.headD_cons]
    rw [topPFilter, if_pos (by norm_num : (1:ℝ) ≤ 1)]
    exact invCDF_at_10
  refine ⟨hcode, hspec, ?_⟩
  rw [hcode, hspec]
  norm_num

/-- C5 (amended): for temperatures at or above the 1e-5 threshold the sampler
computes the softmax of the temperature-scaled logits and draws by inverse
CDF directly; the `top_k` and `top_p` parameters are never consulted — the
result depends only on the temperature (and the logits and the stream). -/
theorem C5_sampler_ignores_topk_topp (logits : List ℝ) (p q : SamplingParams)
    (stream : List ℝ) (htemp : p.temperature = q.temperature) :
    Sampler.sample logits p stream = Sampler.sample logits q stream := by
  simp only [Sampler.sample, htemp]

/-- C5 witness: changing `top_p`, `top_k` and `seed` (with the temperature
fixed at 1) does not change the sampled token. -/
theorem C5_sampler_ignores_topk_topp_witness :
    Sampler.sample [(0:ℝ)] { temperature := 1, top_p := 1, top_k := 1, seed := 42 } [] =
      Sampler.sample [(0:ℝ)] { temperature := 1, top_p := 1 / 2, top_k := 7, seed := 0 } [] :=
  C5_sampler_ignores_topk_topp [(0:ℝ)]
    { temperature := 1, top_p := 1, top_k := 1, seed := 42 }
    { temperature := 1, top_p := 1 / 2, top_k := 7, seed := 0 } [] rfl


/-- `processToken` appends exactly the sampled token to `output_token_ids`. -/
theorem processToken_output_ids (decode : List TokenId → Str)
    (eos : Option TokenId) (s : Sequence) (t : TokenId) :
    (processToken decode eos s t).1.output_token_ids = s.output_token_ids ++ [t] := by
  unfold processToken Sequence.append_token_id Sequence.set_status
    Sequence.is_finished
  dsimp only
  split_ifs <;> rfl

/-- `processToken` replaces `output_text` by the decode of the extended ids. -/
theorem processToken_output_text (decode : List TokenId → Str)
    (eos : Option TokenId) (s : Sequence) (t : TokenId) :
    (processToken decode eos s t).1.output_text =
      decode (s.output_token_ids ++ [t]) := by
  unfold processToken Sequence.append_token_id Sequence.set_status
    Sequence.is_finished
  dsimp only
  split_ifs <;> rfl

/-- When the sampled token is not the end-of-text id and the sequence was not
already finished, `processToken` preserves status and sender. -/
theorem processToken_not_eos (decode : List TokenId → Str) (eos : Option TokenId)
    (s : Sequence) (t : TokenId) (he : some t ≠ eos)
    (hstat : s.status ≠ SequenceStatus.Finished) :
    (processToken decode eos s t).1.status = s.status ∧
    (processToken decode eos s t).1.sender = s.sender := by
  unfold processToken Sequence.append_token_id Sequence.set_status
    Sequence.is_finished
  simp [he, hstat]

/-- One-step unfolding of `runTokens`. -/
theorem runTokens_cons (decode : List TokenId → Str) (eos : Option TokenId)
    (s : Sequence) (t : TokenId) (ts : List TokenId) :
    runTokens decode eos s (t :: ts) =
      ((runTokens decode eos (processToken decode eos s t).1 ts).1,
       ((processToken decode eos s t).2).toList ++
         (runTokens decode eos (processToken decode eos s t).1 ts).2) := rfl

/-- Provided the sequence still holds its sender and the previous
`output_text` is a prefix of the new decode, `processToken` sends exactly the
text by which the decode grew: old text plus delta equals new text. -/
theorem processToken_delta (decode : List TokenId → Str) (eos : Option TokenId)
    (s : Sequence) (t : TokenId) (hsend : s.sender = true)
    (hpref : s.output_text <+: decode (s.output_token_ids ++ [t])) :
    s.output_text ++ ((processToken decode eos s t).2).toList.flatten =
      (processToken decode eos s t).1.output_text := by
  obtain ⟨suf, hsuf⟩ := hpref
  have hdrop :
      (decode (s.output_token_ids ++ [t])).drop s.output_text.length = suf := by
    rw [← hsuf, List.drop_left]
  unfold processToken Sequence.append_token_id Sequence.set_status
    Sequence.is_finished
  by_cases he : some t = eos <;>
    simp only [he, if_true, if_false, hdrop, hsend] <;>
    by_cases hs0 : suf = [] <;>
    simp_all [← hsuf] <;>
    split_ifs <;> rfl

/-- C7: for every run of sampled tokens delivered to a running sequence whose
sink is still open, whose recorded `output_text` is the decode of its output
ids, and which does not sample the end-of-text id before the final token,
the initial text plus the concatenation of all deltas sent to the sink equals
the decode of the final `output_token_ids` (for a fresh sequence: the
concatenation of the deltas is exactly the decoded generated text), provided
the tokenizer decode is prefix-monotone (each appended token only extends the
decoded text — the property the source's full-decode-then-suffix delta
computation relies on). -/
theorem C7_deltas_reassemble (decode : List TokenId → Str) (eos : Option TokenId)
    (s : Sequence) (toks : List TokenId)
    (hmono : ∀ ids t, decode ids <+: decode (ids ++ [t]))
    (hinv : s.output_text = decode s.output_token_ids)
    (hsend : s.sender = true)
    (hstat : s.status ≠ SequenceStatus.Finished)
    (hpre : ∀ t, t ∈ toks.dropLast → some t ≠ eos) :
    s.output_text ++ ((runTokens decode eos s toks).2).flatten =
      decode ((runTokens decode eos s toks).1.output_token_ids) ∧
    (runTokens decode eos s toks).1.output_token_ids =
      s.output_token_ids ++ toks := by
  induction toks generalizing s with
  | nil => simp [runTokens, hinv]
  | cons t ts ih =>
    have hpref : s.output_text <+: decode (s.output_token_ids ++ [t]) := by
      rw [hinv]
      exact hmono _ _
    have hdelta := processToken_delta decode eos s t hsend hpref
    have hids := processToken_output_ids decode eos s t
    have htext := processToken_output_text decode eos s t
    cases ts with
    | nil =>
      rw [runTokens_cons]
      simp only [runTokens, List.append_nil]
      refine ⟨?_, hids⟩
      rw [hdelta, htext, hids]
    | cons t2 ts2 =>
      have ht_ne : some t ≠ eos := by
        refine hpre t ?_
        rw [List.dropLast_cons₂]
        exact List.mem_cons_self _ _
      obtain ⟨hst, hsd⟩ := processToken_not_eos decode eos s t ht_ne hstat
      have hinv2 : (processToken decode eos s t).1.output_text =
          decode (processToken decode eos s t).1.output_token_ids := by
        rw [htext, hids]
      have hsend2 : (processToken decode eos s t).1.sender = true := by
        rw [hsd, hsend]
      have hstat2 : (processToken decode eos s t).1.status ≠
          SequenceStatus.Finished := by
        rw [hst]
        exact hstat
      have hpre2 : ∀ u, u ∈ (t2 :: ts2).dropLast → some u ≠ eos := by
        intro u hu
        refine hpre u ?_
        rw [List.dropLast_cons₂]
        exact List.mem_cons_of_mem _ hu
      obtain ⟨ihA, ihB⟩ :=
        ih (processToken decode eos s t).1 hinv2 hsend2 hstat2 hpre2
      rw [runTokens_cons]
      refine ⟨?_, ?_⟩
      · rw [List.flatten_append, ← List.append_assoc, hdelta]
        exact ihA
      · rw [ihB, hids, List.append_assoc]
        rfl

/-- Tokenizer decode stub for the C7 witness: every id decodes to one 'a'
(prefix-monotone, as a well-behaved detokenizer is). -/
def decRep : List TokenId → Str := fun ids => List.replicate ids.length 'a'

/-- Fresh running sequence for the C7 witness. -/
def seqC7 : Sequence :=
  { seq_id := 0, prompt := [], prompt_token_ids := [10], output_token_ids := [],
    output_text := [], status := SequenceStatus.Running, sender := true }

/-- C7 witness: with end-of-text id 9 and sampled tokens `[4, 9]`, the deltas
sent to the sink reassemble to the decode of the final output ids. -/
theorem C7_deltas_reassemble_witness :
    seqC7.output_text ++ ((runTokens decRep (some 9) seqC7 [4, 9]).2).flatten =
      decRep ((runTokens decRep (some 9) seqC7 [4, 9]).1.output_token_ids) :=
  (C7_deltas_reassemble decRep (some 9) seqC7 [4, 9]
    (fun ids t => ⟨['a'], by simp [decRep, List.replicate_succ']⟩)
    rfl rfl (by decide) (by decide)).1

end BoltXL
